import Mathlib

/-!
Verification development for the Schubfach shortest-decimal conversion
(`src/schubfach.hpp`): a shallow embedding of the float-layout traits, the
binary decomposition constructor `float_triple`, the 32-bit math kit
(`floor_log2_pow10`, `compute_pow10`, `round_to_odd`) and the rounding core
`to_decimal`, together with theorems checking the specification's claims.

Machine integers are embedded as `ℕ`/`ℤ` with explicit `% 2^32` where the
C++ `uint32_t` arithmetic can wrap; the fatal range assertion inside
`compute_pow10` is embedded as an `Option` (`none` = assertion failure).
-/

namespace Schubfach

/-- Fuel-driven computation of `std::bit_width`: number of bits needed to
represent `n` (0 for `n = 0`).  128 fuel steps cover every value of the
storage types used by the source (up to `__uint128_t`). -/
def bitWidthAux : ℕ → ℕ → ℕ
  | 0, _ => 0
  | f + 1, n => if n = 0 then 0 else bitWidthAux f (n / 2) + 1

/-- The C++ `std::bit_width` on the storage integers of the source. -/
def bit_width (n : ℕ) : ℕ := bitWidthAux 128 n

/-- Fuel-driven computation of `std::popcount` (number of set bits). -/
def popCountAux : ℕ → ℕ → ℕ
  | 0, _ => 0
  | f + 1, n => if n = 0 then 0 else n % 2 + popCountAux f (n / 2)

/-- The C++ `std::popcount` on the storage integers of the source. -/
def popCount (n : ℕ) : ℕ := popCountAux 128 n

/-! ### `float_traits` (src/schubfach.hpp lines 31–48)

The C++ traits are compile-time constants derived from
`std::numeric_limits<Float>::digits` and `::max_exponent`; we embed them as
functions of those two parameters.  `float` is `(24, 128)`, `double` is
`(53, 1024)`. -/

def significand_width (digits : ℕ) : ℕ := digits

def exponent_width (maxExp : ℕ) : ℕ := bit_width maxExp

def sign_width : ℕ := 1

def has_hidden_bit (digits maxExp : ℕ) : Bool :=
  decide ((sign_width + exponent_width maxExp + significand_width digits) % 8 ≠ 0)

def storage_width (digits maxExp : ℕ) : ℕ :=
  sign_width + exponent_width maxExp + significand_width digits -
    (if has_hidden_bit digits maxExp then 1 else 0)

def exponent_bias (digits maxExp : ℕ) : ℤ :=
  (maxExp : ℤ) + significand_width digits - 2

def exponent_shift (digits maxExp : ℕ) : ℕ :=
  storage_width digits maxExp - sign_width - exponent_width maxExp

def sign_shift (digits maxExp : ℕ) : ℕ :=
  storage_width digits maxExp - sign_width

def significand_mask (digits maxExp : ℕ) : ℕ :=
  (1 <<< (significand_width digits -
    (if has_hidden_bit digits maxExp then 1 else 0))) - 1

def exponent_mask (digits maxExp : ℕ) : ℕ :=
  ((1 <<< exponent_width maxExp) - 1) <<< exponent_shift digits maxExp

def sign_mask (digits maxExp : ℕ) : ℕ :=
  ((1 <<< sign_width) - 1) <<< sign_shift digits maxExp

/-! ### The triple (src/schubfach.hpp lines 162–187) -/

/-- The mutable value threaded through the algorithm: `significand` is the
storage-width unsigned integer, `exponent` the `int32_t` exponent, `sign`
the `int8_t` sign (`±1`). -/
structure Triple where
  significand : ℕ
  exponent : ℤ
  sign : ℤ
deriving Repr, DecidableEq

/-- The `float_triple` constructor (src/schubfach.hpp lines 172–187):
decompose a raw bit pattern, restoring the hidden bit of normals and
left-normalizing subnormals. -/
def float_triple (digits maxExp : ℕ) (bits : ℕ) : Triple :=
  let e0 : ℕ := (bits &&& exponent_mask digits maxExp) >>> exponent_shift digits maxExp
  let sgn : ℤ := if bits &&& sign_mask digits maxExp = 0 then 1 else -1
  let sig0 : ℕ := bits &&& significand_mask digits maxExp
  if e0 = 0 ∧ sig0 ≠ 0 then
    let sh : ℕ := significand_width digits - bit_width sig0
    { significand := sig0 <<< sh,
      exponent := 1 - exponent_bias digits maxExp - sh,
      sign := sgn }
  else if e0 ≠ 0 then
    { significand :=
        if has_hidden_bit digits maxExp then
          sig0 ||| (1 <<< (significand_width digits - 1))
        else sig0,
      exponent := (e0 : ℤ) - exponent_bias digits maxExp,
      sign := sgn }
  else
    { significand := sig0, exponent := 0, sign := sgn }

/-- Single-precision decomposition: `float_triple<float>`. -/
def floatTriple32 (bits : ℕ) : Triple := float_triple 24 128 bits

/-- Double-precision decomposition: `float_triple<double>`. -/
def floatTriple64 (bits : ℕ) : Triple := float_triple 53 1024 bits

/-! ### `math<uint32_t>` (src/schubfach.hpp lines 50–160) -/

/-- `math::floor_log2_pow10` (line 56): `(e * 1741647) >> 19` in `int32_t`
arithmetic; for the argument range used by the conversion the multiply does
not overflow, and `>>` on a negative `int32_t` is floor division. -/
def floor_log2_pow10 (e : ℤ) : ℤ := Int.fdiv (e * 1741647) (2 ^ 19)

/-- The 77-entry power-of-ten mantissa table of `math<uint32_t>::compute_pow10`
(lines 77–155), indexed by `k - kMin` with `kMin = -31`. -/
def g32_table : List ℕ := [
  0x81CEB32C4B43FCF5, -- -31
  0xA2425FF75E14FC32, -- -30
  0xCAD2F7F5359A3B3F, -- -29
  0xFD87B5F28300CA0E, -- -28
  0x9E74D1B791E07E49, -- -27
  0xC612062576589DDB, -- -26
  0xF79687AED3EEC552, -- -25
  0x9ABE14CD44753B53, -- -24
  0xC16D9A0095928A28, -- -23
  0xF1C90080BAF72CB2, -- -22
  0x971DA05074DA7BEF, -- -21
  0xBCE5086492111AEB, -- -20
  0xEC1E4A7DB69561A6, -- -19
  0x9392EE8E921D5D08, -- -18
  0xB877AA3236A4B44A, -- -17
  0xE69594BEC44DE15C, -- -16
  0x901D7CF73AB0ACDA, -- -15
  0xB424DC35095CD810, -- -14
  0xE12E13424BB40E14, -- -13
  0x8CBCCC096F5088CC, -- -12
  0xAFEBFF0BCB24AAFF, -- -11
  0xDBE6FECEBDEDD5BF, -- -10
  0x89705F4136B4A598, --  -9
  0xABCC77118461CEFD, --  -8
  0xD6BF94D5E57A42BD, --  -7
  0x8637BD05AF6C69B6, --  -6
  0xA7C5AC471B478424, --  -5
  0xD1B71758E219652C, --  -4
  0x83126E978D4FDF3C, --  -3
  0xA3D70A3D70A3D70B, --  -2
  0xCCCCCCCCCCCCCCCD, --  -1
  0x8000000000000000, --   0
  0xA000000000000000, --   1
  0xC800000000000000, --   2
  0xFA00000000000000, --   3
  0x9C40000000000000, --   4
  0xC350000000000000, --   5
  0xF424000000000000, --   6
  0x9896800000000000, --   7
  0xBEBC200000000000, --   8
  0xEE6B280000000000, --   9
  0x9502F90000000000, --  10
  0xBA43B74000000000, --  11
  0xE8D4A51000000000, --  12
  0x9184E72A00000000, --  13
  0xB5E620F480000000, --  14
  0xE35FA931A0000000, --  15
  0x8E1BC9BF04000000, --  16
  0xB1A2BC2EC5000000, --  17
  0xDE0B6B3A76400000, --  18
  0x8AC7230489E80000, --  19
  0xAD78EBC5AC620000, --  20
  0xD8D726B7177A8000, --  21
  0x878678326EAC9000, --  22
  0xA968163F0A57B400, --  23
  0xD3C21BCECCEDA100, --  24
  0x84595161401484A0, --  25
  0xA56FA5B99019A5C8, --  26
  0xCECB8F27F4200F3A, --  27
  0x813F3978F8940985, --  28
  0xA18F07D736B90BE6, --  29
  0xC9F2C9CD04674EDF, --  30
  0xFC6F7C4045812297, --  31
  0x9DC5ADA82B70B59E, --  32
  0xC5371912364CE306, --  33
  0xF684DF56C3E01BC7, --  34
  0x9A130B963A6C115D, --  35
  0xC097CE7BC90715B4, --  36
  0xF0BDC21ABB48DB21, --  37
  0x96769950B50D88F5, --  38
  0xBC143FA4E250EB32, --  39
  0xEB194F8E1AE525FE, --  40
  0x92EFD1B8D0CF37BF, --  41
  0xB7ABC627050305AE, --  42
  0xE596B7B0C643C71A, --  43
  0x8F7E32CE7BEA5C70, --  44
  0xB35DBF821AE4F38C] --  45

/-- `math<uint32_t>::compute_pow10` (lines 74–160).  The two `SF_ASSERT`s
guarding `kMin = -31 ≤ k ≤ 45 = kMax` are embedded as `none` (a fatal
assertion failure); in range the table entry is returned. -/
def compute_pow10_32 (k : ℤ) : Option ℕ :=
  if -31 ≤ k ∧ k ≤ 45 then some (g32_table.getD (k + 31).toNat 0) else none

/-- `2^32`, the modulus of `uint32_t` arithmetic. -/
def M32 : ℕ := 2 ^ 32

/-- `math<uint32_t>::word0` (line 60): `static_cast<uint32_t>(x >> 32)`. -/
def word0_32 (x : ℕ) : ℕ := (x >>> 32) % M32

/-- `math<uint32_t>::word1` (line 62): `static_cast<uint32_t>(x >> 64)`. -/
def word1_32 (x : ℕ) : ℕ := (x >>> 64) % M32

/-- `math<uint32_t>::round_to_odd` (lines 64–71): the 96-bit product
`g * cp` fits the `__uint128_t` exactly, so `p` is the mathematical
product. -/
def round_to_odd_32 (g cp : ℕ) : ℕ :=
  let p := g * cp
  word1_32 p ||| (if 1 < word0_32 p then 1 else 0)

/-! ### Stage values of `float_triple::to_decimal` (lines 189–237)

Each `const` local of `to_decimal` is embedded as a named function of the
input fields (and, after the table lookup, of the looked-up mantissa `g`);
`to_decimal32` below chains them with the source's control flow. -/

def is_evenOf (sig : ℕ) : Bool := decide (sig % 2 = 0)

def lbcOf (sig : ℕ) : Bool := decide (popCount sig = 1)

/-- Line 200: `k = (exponent * 1262611 - (lower_boundary_is_closer ? 524031 : 0)) >> 22`. -/
def kEst (e : ℤ) (lbc : Bool) : ℤ :=
  Int.fdiv (e * 1262611 - (if lbc then 524031 else 0)) (2 ^ 22)

/-- Line 201: `h = exponent + floor_log2_pow10(-k) + 1`. -/
def hShift (e : ℤ) (lbc : Bool) : ℤ := e + floor_log2_pow10 (-(kEst e lbc)) + 1

/-- Line 196: `cbl = 4 * significand - 2 + lower_boundary_is_closer` in `uint32_t`. -/
def cblOf (sig : ℕ) : ℕ := (4 * sig + (M32 - 2) + (if lbcOf sig then 1 else 0)) % M32

/-- Line 197: `cb = 4 * significand`. -/
def cbOf (sig : ℕ) : ℕ := (4 * sig) % M32

/-- Line 198: `cbr = 4 * significand + 2`. -/
def cbrOf (sig : ℕ) : ℕ := (4 * sig + 2) % M32

/-- The argument `cbl << h` of the first `round_to_odd` call (line 205). -/
def cblShifted (sig : ℕ) (e : ℤ) : ℕ :=
  (cblOf sig <<< (hShift e (lbcOf sig)).toNat) % M32

/-- The argument `cb << h` of the second `round_to_odd` call (line 206). -/
def cbShifted (sig : ℕ) (e : ℤ) : ℕ :=
  (cbOf sig <<< (hShift e (lbcOf sig)).toNat) % M32

/-- The argument `cbr << h` of the third `round_to_odd` call (line 207). -/
def cbrShifted (sig : ℕ) (e : ℤ) : ℕ :=
  (cbrOf sig <<< (hShift e (lbcOf sig)).toNat) % M32

def vblOf (g sig : ℕ) (e : ℤ) : ℕ := round_to_odd_32 g (cblShifted sig e)

def vbOf (g sig : ℕ) (e : ℤ) : ℕ := round_to_odd_32 g (cbShifted sig e)

def vbrOf (g sig : ℕ) (e : ℤ) : ℕ := round_to_odd_32 g (cbrShifted sig e)

/-- Line 209: `lower = vbl + !accept_lower` (`accept_lower = is_even`). -/
def lowerOf (g sig : ℕ) (e : ℤ) : ℕ :=
  (vblOf g sig e + (if is_evenOf sig then 0 else 1)) % M32

/-- Line 210: `upper = vbr - !accept_upper` in `uint32_t`. -/
def upperOf (g sig : ℕ) (e : ℤ) : ℕ :=
  (vbrOf g sig e + (M32 - (if is_evenOf sig then 0 else 1))) % M32

/-- Line 212: the candidate decimal significand `vb / 4`. -/
def candOf (g sig : ℕ) (e : ℤ) : ℕ := vbOf g sig e / 4

/-- Line 215: `sp = significand / 10` (with `significand = vb / 4`). -/
def spOf (g sig : ℕ) (e : ℤ) : ℕ := candOf g sig e / 10

/-- Line 216: `up_inside = lower <= 40 * sp`. -/
def upInsideOf (g sig : ℕ) (e : ℤ) : Bool :=
  decide (lowerOf g sig e ≤ (40 * spOf g sig e) % M32)

/-- Line 217: `wp_inside = 40 * sp + 40 <= upper`. -/
def wpInsideOf (g sig : ℕ) (e : ℤ) : Bool :=
  decide ((40 * spOf g sig e + 40) % M32 ≤ upperOf g sig e)

/-- Line 225: `u_inside = lower <= 4 * significand`. -/
def uInsideOf (g sig : ℕ) (e : ℤ) : Bool :=
  decide (lowerOf g sig e ≤ (4 * candOf g sig e) % M32)

/-- Line 226: `w_inside = 4 * significand + 4 <= upper`. -/
def wInsideOf (g sig : ℕ) (e : ℤ) : Bool :=
  decide ((4 * candOf g sig e + 4) % M32 ≤ upperOf g sig e)

/-- Line 232: `mid = 4 * significand + 2`. -/
def midOf (g sig : ℕ) (e : ℤ) : ℕ := (4 * candOf g sig e + 2) % M32

/-- Line 233: `round_up = vb > mid || (vb == mid && (significand & 1) != 0)`. -/
def roundUpOf (g sig : ℕ) (e : ℤ) : Bool :=
  decide (midOf g sig e < vbOf g sig e) ||
    (decide (vbOf g sig e = midOf g sig e) && decide (candOf g sig e &&& 1 ≠ 0))

/-- `float_triple::to_decimal` (lines 189–237) for the `uint32_t` storage
kind.  `none` embeds the fatal assertion inside `compute_pow10`; otherwise
the returned triple carries the decimal significand and decimal exponent,
with the sign untouched as in the source. -/
def to_decimal32 (t : Triple) : Option Triple :=
  let sig := t.significand
  let e := t.exponent
  let k := kEst e (lbcOf sig)
  match compute_pow10_32 (-k) with
  | none => none
  | some g =>
    if 10 ≤ candOf g sig e ∧ upInsideOf g sig e ≠ wpInsideOf g sig e then
      some { significand := (spOf g sig e + (if wpInsideOf g sig e then 1 else 0)) % M32,
             exponent := k + 1, sign := t.sign }
    else if uInsideOf g sig e ≠ wInsideOf g sig e then
      some { significand := (candOf g sig e + (if wInsideOf g sig e then 1 else 0)) % M32,
             exponent := k, sign := t.sign }
    else
      some { significand := (candOf g sig e + (if roundUpOf g sig e then 1 else 0)) % M32,
             exponent := k, sign := t.sign }

/-! ### Reference definitions following the specification's words

These are NOT translated from the source; they state what the spec says the
source computes, to be compared with the source-derived definitions above. -/

/-- Reference magnitude of an encoded single-precision pattern, following the
spec's words (§4.2): a zero exponent field denotes a subnormal of value
`F · 2^(1-bias)`, a nonzero (finite) exponent field a normal of value
`(2^23 + F) · 2^(E-bias)`, with `bias = 150` at integer-significand scale. -/
def specMagnitude32 (b : ℕ) : ℚ :=
  let E : ℕ := b / 2 ^ 23 % 2 ^ 8
  let F : ℕ := b % 2 ^ 23
  if E = 0 then (F : ℚ) * (2 : ℚ) ^ (1 - 150 : ℤ)
  else ((2 ^ 23 + F : ℕ) : ℚ) * (2 : ℚ) ^ ((E : ℤ) - 150)

/-- Reference magnitude of an encoded double-precision pattern, following the
spec's words (§4.2), with `bias = 1075` at integer-significand scale. -/
def specMagnitude64 (b : ℕ) : ℚ :=
  let E : ℕ := b / 2 ^ 52 % 2 ^ 11
  let F : ℕ := b % 2 ^ 52
  if E = 0 then (F : ℚ) * (2 : ℚ) ^ (1 - 1075 : ℤ)
  else ((2 ^ 52 + F : ℕ) : ℚ) * (2 : ℚ) ^ ((E : ℤ) - 1075)

/-- Modelled from the spec (glossary and §4.3): round-to-odd as the claim
describes it — the high word of the double-width product, with its lowest
bit forced to 1 exactly when ANY bit of the product below the high word is
nonzero.  To be compared with the source's `round_to_odd_32`. -/
def round_to_odd_spec (g cp : ℕ) : ℕ :=
  (g * cp) / 2 ^ 64 % 2 ^ 32 ||| (if (g * cp) % 2 ^ 64 ≠ 0 then 1 else 0)

/-- The statement `k = ⌊e·log10 2 − (log10(4/3) if lbc)⌋` phrased without
real logarithms: `k` is the floor of `log10 x` for `x = 2^(e-2)·3` (that is,
`2^e · 3/4`) when `lbc`, and for `x = 2^(e-2)·4 = 2^e` otherwise. -/
def isFloorLog10 (e : ℤ) (lbc : Bool) (k : ℤ) : Prop :=
  (10 : ℚ) ^ k ≤ (2 : ℚ) ^ (e - 2) * (if lbc then 3 else 4) ∧
    (2 : ℚ) ^ (e - 2) * (if lbc then 3 else 4) < (10 : ℚ) ^ (k + 1)

/-- The statement `t = ⌊log2 (10^m)⌋` phrased without real logarithms. -/
def isFloorLog2Pow10 (m t : ℤ) : Prop :=
  (2 : ℚ) ^ t ≤ (10 : ℚ) ^ m ∧ (10 : ℚ) ^ m < (2 : ℚ) ^ (t + 1)

/-! ### Helper lemmas on the fuel-driven bit helpers -/

theorem bitWidthAux_zero (f : ℕ) : bitWidthAux f 0 = 0 := by
  cases f <;> simp [bitWidthAux]

theorem bitWidthAux_spec (f : ℕ) :
    ∀ n, n < 2 ^ f → n ≠ 0 →
      1 ≤ bitWidthAux f n ∧ 2 ^ (bitWidthAux f n - 1) ≤ n ∧ n < 2 ^ bitWidthAux f n := by
  induction f with
  | zero => intro n hn h0; omega
  | succ f ih =>
    intro n hn h0
    rw [bitWidthAux, if_neg h0]
    by_cases hn2 : n / 2 = 0
    · have hn1 : n = 1 := by omega
      subst hn1
      simp [bitWidthAux_zero]
    · have hlt : n / 2 < 2 ^ f := by
        have := Nat.pow_succ 2 f
        omega
      obtain ⟨h1, h2, h3⟩ := ih (n / 2) hlt hn2
      refine ⟨by omega, ?_, ?_⟩
      · have : 2 ^ (bitWidthAux f (n / 2) + 1 - 1) = 2 * 2 ^ (bitWidthAux f (n / 2) - 1) := by
          rw [Nat.add_sub_cancel, ← Nat.pow_succ']
          congr 1
          omega
        omega
      · have : 2 ^ (bitWidthAux f (n / 2) + 1) = 2 * 2 ^ bitWidthAux f (n / 2) := by
          rw [← Nat.pow_succ']
        omega

theorem bit_width_spec {n : ℕ} (hn : n < 2 ^ 128) (h0 : n ≠ 0) :
    1 ≤ bit_width n ∧ 2 ^ (bit_width n - 1) ≤ n ∧ n < 2 ^ bit_width n :=
  bitWidthAux_spec 128 n hn h0

theorem bit_width_pos {n : ℕ} (h0 : n ≠ 0) : 1 ≤ bit_width n := by
  rw [bit_width, bitWidthAux, if_neg h0]
  omega

/-! ### Helper lemmas on bit extraction -/

theorem and_shiftLeft_mask_shiftRight (b w s : ℕ) :
    (b &&& ((2 ^ w - 1) <<< s)) >>> s = b / 2 ^ s % 2 ^ w := by
  have h : b / 2 ^ s % 2 ^ w = (b >>> s) % 2 ^ w := by
    rw [Nat.shiftRight_eq_div_pow]
  rw [h]
  apply Nat.eq_of_testBit_eq
  intro j
  simp only [Nat.testBit_shiftRight, Nat.testBit_and, Nat.testBit_shiftLeft,
    Nat.testBit_two_pow_sub_one, Nat.testBit_mod_two_pow, Nat.add_sub_cancel_left,
    ge_iff_le, Nat.le_add_right, decide_True, Bool.true_and]
  exact Bool.and_comm _ _

theorem and_low_mask (b w : ℕ) : b &&& (2 ^ w - 1) = b % 2 ^ w :=
  Nat.and_pow_two_sub_one_eq_mod b w

theorem and_two_pow_eq_zero_iff (b s : ℕ) :
    b &&& 2 ^ s = 0 ↔ b / 2 ^ s % 2 = 0 := by
  constructor
  · intro h
    by_contra hbit
    have hb : b.testBit s = true := by
      rw [Nat.testBit_to_div_mod]
      simpa using by omega
    have : (b &&& 2 ^ s).testBit s = true := by
      simp [Nat.testBit_and, hb, Nat.testBit_two_pow_self]
    rw [h] at this
    simp at this
  · intro h
    apply Nat.eq_of_testBit_eq
    intro j
    simp only [Nat.testBit_and, Nat.zero_testBit, Nat.testBit_two_pow]
    by_cases hj : s = j
    · subst hj
      have : b.testBit s = false := by
        rw [Nat.testBit_to_div_mod]
        simpa using by omega
      simp [this]
    · simp [hj]

theorem or_two_pow_of_lt {x n : ℕ} (h : x < 2 ^ n) : x ||| 2 ^ n = 2 ^ n + x := by
  apply Nat.eq_of_testBit_eq
  intro j
  rcases Nat.lt_trichotomy j n with hj | hj | hj
  · rw [Nat.testBit_two_pow_add_gt hj]
    simp [Nat.testBit_or, Nat.testBit_two_pow_of_ne (by omega : n ≠ j)]
  · subst hj
    rw [Nat.testBit_two_pow_add_eq]
    simp [Nat.testBit_or, Nat.testBit_two_pow_self, Nat.testBit_lt_two_pow h]
  · have h1 : x.testBit j = false := Nat.testBit_lt_two_pow (by
      calc x < 2 ^ n := h
        _ ≤ 2 ^ j := Nat.pow_le_pow_right (by omega) (by omega))
    have h2 : (2 ^ n + x).testBit j = false := Nat.testBit_lt_two_pow (by
      calc 2 ^ n + x < 2 ^ n + 2 ^ n := by omega
        _ = 2 ^ (n + 1) := by rw [Nat.pow_succ]; omega
        _ ≤ 2 ^ j := Nat.pow_le_pow_right (by omega) (by omega))
    simp [Nat.testBit_or, h1, h2, Nat.testBit_two_pow_of_ne (by omega : n ≠ j)]

theorem lor_one_eq (x : ℕ) : x ||| 1 = 2 * (x / 2) + 1 := by
  apply Nat.eq_of_testBit_eq
  intro j
  cases j with
  | zero =>
    simp only [Nat.testBit_or, Nat.testBit_zero]
    have h1 : (2 * (x / 2) + 1) % 2 = 1 := by omega
    have h2 : (1 : ℕ) % 2 = 1 := rfl
    simp [h1, h2]
  | succ i =>
    simp only [Nat.testBit_succ, Nat.or_div_two]
    have h1 : (2 * (x / 2) + 1) / 2 = x / 2 := by omega
    have h2 : (1 : ℕ) / 2 = 0 := rfl
    simp [h1, h2]

/-! ### Helper lemmas on disjoint mask spans -/

theorem span_and_span_eq_zero (w₁ s₁ w₂ s₂ : ℕ) (h : s₁ + w₁ ≤ s₂) :
    ((2 ^ w₁ - 1) <<< s₁) &&& ((2 ^ w₂ - 1) <<< s₂) = 0 := by
  apply Nat.eq_of_testBit_eq
  intro j
  simp only [Nat.testBit_and, Nat.testBit_shiftLeft, Nat.testBit_two_pow_sub_one,
    Nat.zero_testBit, ge_iff_le, Bool.and_eq_false_iff]
  rcases Nat.lt_or_ge j s₂ with hj | hj
  · right
    simp [hj, Nat.not_le.mpr hj]
  · left
    have : ¬ (j - s₁ < w₁) := by omega
    simp [this]

theorem span_or_span (a b : ℕ) :
    (2 ^ a - 1) ||| ((2 ^ b - 1) <<< a) = 2 ^ (a + b) - 1 := by
  apply Nat.eq_of_testBit_eq
  intro j
  simp only [Nat.testBit_or, Nat.testBit_shiftLeft, Nat.testBit_two_pow_sub_one, ge_iff_le]
  rcases Nat.lt_or_ge j a with hj | hj
  · simp [hj, Nat.not_le.mpr hj]
    omega
  · simp [hj, Nat.not_lt.mpr hj]
    omega

/-- The three field masks of a layout with `a` significand-field bits and `b`
exponent-field bits (sign on top): pairwise disjoint, union `2^(a+b+1) - 1`. -/
theorem traits_masks (a b : ℕ) :
    (((1 <<< 1) - 1) <<< (a + b)) &&& (((1 <<< b) - 1) <<< a) = 0 ∧
    (((1 <<< 1) - 1) <<< (a + b)) &&& ((1 <<< a) - 1) = 0 ∧
    (((1 <<< b) - 1) <<< a) &&& ((1 <<< a) - 1) = 0 ∧
    ((((1 <<< 1) - 1) <<< (a + b)) ||| ((((1 <<< b) - 1) <<< a) ||| ((1 <<< a) - 1))) =
      2 ^ (a + b + 1) - 1 := by
  simp only [Nat.one_shiftLeft]
  refine ⟨?_, ?_, ?_, ?_⟩
  · rw [Nat.and_comm]
    exact span_and_span_eq_zero b a 1 (a + b) (by omega)
  · rw [Nat.and_comm, show (2 ^ a - 1 : ℕ) = (2 ^ a - 1) <<< 0 from Nat.shiftLeft_zero.symm]
    exact span_and_span_eq_zero a 0 1 (a + b) (by omega)
  · rw [Nat.and_comm, show (2 ^ a - 1 : ℕ) = (2 ^ a - 1) <<< 0 from Nat.shiftLeft_zero.symm]
    exact span_and_span_eq_zero a 0 b a (by omega)
  · rw [Nat.lor_comm ((2 ^ b - 1) <<< a) _, span_or_span a b, Nat.lor_comm, span_or_span (a + b) 1]

/-! ### Div/mod characterization of the constructor -/

theorem floatTriple32_eq (b : ℕ) :
    floatTriple32 b =
      if b / 2 ^ 23 % 2 ^ 8 = 0 ∧ b % 2 ^ 23 ≠ 0 then
        ⟨(b % 2 ^ 23) <<< (24 - bit_width (b % 2 ^ 23)),
         1 - 150 - ((24 - bit_width (b % 2 ^ 23) : ℕ) : ℤ),
         if b / 2 ^ 31 % 2 = 0 then 1 else -1⟩
      else if b / 2 ^ 23 % 2 ^ 8 ≠ 0 then
        ⟨b % 2 ^ 23 + 2 ^ 23, ((b / 2 ^ 23 % 2 ^ 8 : ℕ) : ℤ) - 150,
         if b / 2 ^ 31 % 2 = 0 then 1 else -1⟩
      else ⟨b % 2 ^ 23, 0, if b / 2 ^ 31 % 2 = 0 then 1 else -1⟩ := by
  have hEm : exponent_mask 24 128 = ((1 <<< 8) - 1) <<< 23 := by decide
  have hEs : exponent_shift 24 128 = 23 := by decide
  have hSm : sign_mask 24 128 = 1 <<< 31 := by decide
  have hFm : significand_mask 24 128 = (1 <<< 23) - 1 := by decide
  have hHid : has_hidden_bit 24 128 = true := by decide
  have hBias : exponent_bias 24 128 = 150 := by decide
  have hOr : b % 2 ^ 23 ||| 2 ^ (24 - 1) = b % 2 ^ 23 + 2 ^ 23 := by
    rw [show (24 - 1 : ℕ) = 23 from rfl,
      or_two_pow_of_lt (Nat.mod_lt b (by norm_num)), Nat.add_comm]
  simp only [floatTriple32, float_triple, hEm, hEs, hSm, hFm, hHid, hBias,
    significand_width, Nat.one_shiftLeft, if_true]
  simp only [and_shiftLeft_mask_shiftRight, and_low_mask, and_two_pow_eq_zero_iff, hOr]

theorem floatTriple64_eq (b : ℕ) :
    floatTriple64 b =
      if b / 2 ^ 52 % 2 ^ 11 = 0 ∧ b % 2 ^ 52 ≠ 0 then
        ⟨(b % 2 ^ 52) <<< (53 - bit_width (b % 2 ^ 52)),
         1 - 1075 - ((53 - bit_width (b % 2 ^ 52) : ℕ) : ℤ),
         if b / 2 ^ 63 % 2 = 0 then 1 else -1⟩
      else if b / 2 ^ 52 % 2 ^ 11 ≠ 0 then
        ⟨b % 2 ^ 52 + 2 ^ 52, ((b / 2 ^ 52 % 2 ^ 11 : ℕ) : ℤ) - 1075,
         if b / 2 ^ 63 % 2 = 0 then 1 else -1⟩
      else ⟨b % 2 ^ 52, 0, if b / 2 ^ 63 % 2 = 0 then 1 else -1⟩ := by
  have hEm : exponent_mask 53 1024 = ((1 <<< 11) - 1) <<< 52 := by decide
  have hEs : exponent_shift 53 1024 = 52 := by decide
  have hSm : sign_mask 53 1024 = 1 <<< 63 := by decide
  have hFm : significand_mask 53 1024 = (1 <<< 52) - 1 := by decide
  have hHid : has_hidden_bit 53 1024 = true := by decide
  have hBias : exponent_bias 53 1024 = 1075 := by decide
  have hOr : b % 2 ^ 52 ||| 2 ^ (53 - 1) = b % 2 ^ 52 + 2 ^ 52 := by
    rw [show (53 - 1 : ℕ) = 52 from rfl,
      or_two_pow_of_lt (Nat.mod_lt b (by norm_num)), Nat.add_comm]
  simp only [floatTriple64, float_triple, hEm, hEs, hSm, hFm, hHid, hBias,
    significand_width, Nat.one_shiftLeft, if_true]
  simp only [and_shiftLeft_mask_shiftRight, and_low_mask, and_two_pow_eq_zero_iff, hOr]

theorem sign_ite_testBit (b s : ℕ) :
    (if b / 2 ^ s % 2 = 0 then (1 : ℤ) else -1) = if b.testBit s then -1 else 1 := by
  rw [Nat.testBit_to_div_mod]
  by_cases hs : b / 2 ^ s % 2 = 0
  · simp [hs]
  · have h1 : b / 2 ^ s % 2 = 1 := by omega
    simp [hs, h1]

/-- Correctness of single-precision decomposition on finite nonzero
patterns: sign from the sign bit, exact magnitude, and the claimed
subnormal/normal field values. -/
theorem floatTriple32_correct (b : ℕ) (hb : b < 2 ^ 32)
    (hfin : b / 2 ^ 23 % 2 ^ 8 ≠ 2 ^ 8 - 1)
    (hnz : ¬ (b / 2 ^ 23 % 2 ^ 8 = 0 ∧ b % 2 ^ 23 = 0)) :
    ((floatTriple32 b).sign = if b.testBit 31 then -1 else 1) ∧
    ((floatTriple32 b).significand : ℚ) * (2 : ℚ) ^ (floatTriple32 b).exponent =
      specMagnitude32 b ∧
    (b / 2 ^ 23 % 2 ^ 8 = 0 →
      (floatTriple32 b).significand = (b % 2 ^ 23) <<< (24 - bit_width (b % 2 ^ 23)) ∧
      (floatTriple32 b).exponent = 1 - 150 - ((24 - bit_width (b % 2 ^ 23) : ℕ) : ℤ) ∧
      2 ^ 23 ≤ (floatTriple32 b).significand ∧ (floatTriple32 b).significand < 2 ^ 24) ∧
    (b / 2 ^ 23 % 2 ^ 8 ≠ 0 →
      (floatTriple32 b).significand = b % 2 ^ 23 + 2 ^ 23 ∧
      (floatTriple32 b).exponent = ((b / 2 ^ 23 % 2 ^ 8 : ℕ) : ℤ) - 150) := by
  have h2 : (2 : ℚ) ≠ 0 := two_ne_zero
  rw [floatTriple32_eq]
  by_cases hE : b / 2 ^ 23 % 2 ^ 8 = 0
  · have hF : b % 2 ^ 23 ≠ 0 := fun hF => hnz ⟨hE, hF⟩
    rw [if_pos ⟨hE, hF⟩]
    obtain ⟨hw1, hw2, hw3⟩ :=
      bit_width_spec (lt_trans (Nat.mod_lt b (by norm_num))
        (by norm_num : (2 : ℕ) ^ 23 < 2 ^ 128)) hF
    have hw23 : bit_width (b % 2 ^ 23) ≤ 23 := by
      by_contra hgt
      have : (2 : ℕ) ^ 23 ≤ 2 ^ (bit_width (b % 2 ^ 23) - 1) :=
        Nat.pow_le_pow_right (by norm_num) (by omega)
      have := Nat.mod_lt b (y := 2 ^ 23) (by norm_num)
      omega
    refine ⟨sign_ite_testBit b 31, ?_, fun _ => ⟨rfl, rfl, ?_, ?_⟩, fun h => absurd hE h⟩
    · simp only [specMagnitude32, if_pos hE, Nat.shiftLeft_eq]
      set s := 24 - bit_width (b % 2 ^ 23) with hs
      rw [Nat.cast_mul, Nat.cast_pow, Nat.cast_ofNat, mul_assoc,
        ← zpow_natCast (2 : ℚ) s, ← zpow_add₀ h2]
      have hexp : ((s : ℤ) + (1 - 150 - (s : ℤ))) = 1 - 150 := by omega
      rw [hexp]
    · show 2 ^ 23 ≤ (b % 2 ^ 23) <<< (24 - bit_width (b % 2 ^ 23))
      rw [Nat.shiftLeft_eq]
      calc (2 : ℕ) ^ 23 = 2 ^ (bit_width (b % 2 ^ 23) - 1) * 2 ^ (24 - bit_width (b % 2 ^ 23)) := by
            rw [← Nat.pow_add]
            congr 1
            omega
        _ ≤ (b % 2 ^ 23) * 2 ^ (24 - bit_width (b % 2 ^ 23)) :=
            Nat.mul_le_mul_right _ hw2
    · show (b % 2 ^ 23) <<< (24 - bit_width (b % 2 ^ 23)) < 2 ^ 24
      rw [Nat.shiftLeft_eq]
      calc (b % 2 ^ 23) * 2 ^ (24 - bit_width (b % 2 ^ 23)) <
          2 ^ bit_width (b % 2 ^ 23) * 2 ^ (24 - bit_width (b % 2 ^ 23)) :=
            (Nat.mul_lt_mul_right (Nat.pos_pow_of_pos _ (by norm_num))).mpr hw3
        _ = 2 ^ 24 := by
            rw [← Nat.pow_add]
            congr 1
            omega
  · rw [if_neg (fun hc => hE hc.1), if_pos hE]
    refine ⟨sign_ite_testBit b 31, ?_, fun h => absurd h hE, fun _ => ⟨rfl, rfl⟩⟩
    simp only [specMagnitude32, if_neg hE]
    push_cast
    ring

/-- Correctness of double-precision decomposition on finite nonzero
patterns (same statement at the `double` layout). -/
theorem floatTriple64_correct (b : ℕ) (hb : b < 2 ^ 64)
    (hfin : b / 2 ^ 52 % 2 ^ 11 ≠ 2 ^ 11 - 1)
    (hnz : ¬ (b / 2 ^ 52 % 2 ^ 11 = 0 ∧ b % 2 ^ 52 = 0)) :
    ((floatTriple64 b).sign = if b.testBit 63 then -1 else 1) ∧
    ((floatTriple64 b).significand : ℚ) * (2 : ℚ) ^ (floatTriple64 b).exponent =
      specMagnitude64 b ∧
    (b / 2 ^ 52 % 2 ^ 11 = 0 →
      (floatTriple64 b).significand = (b % 2 ^ 52) <<< (53 - bit_width (b % 2 ^ 52)) ∧
      (floatTriple64 b).exponent = 1 - 1075 - ((53 - bit_width (b % 2 ^ 52) : ℕ) : ℤ) ∧
      2 ^ 52 ≤ (floatTriple64 b).significand ∧ (floatTriple64 b).significand < 2 ^ 53) ∧
    (b / 2 ^ 52 % 2 ^ 11 ≠ 0 →
      (floatTriple64 b).significand = b % 2 ^ 52 + 2 ^ 52 ∧
      (floatTriple64 b).exponent = ((b / 2 ^ 52 % 2 ^ 11 : ℕ) : ℤ) - 1075) := by
  have h2 : (2 : ℚ) ≠ 0 := two_ne_zero
  rw [floatTriple64_eq]
  by_cases hE : b / 2 ^ 52 % 2 ^ 11 = 0
  · have hF : b % 2 ^ 52 ≠ 0 := fun hF => hnz ⟨hE, hF⟩
    rw [if_pos ⟨hE, hF⟩]
    obtain ⟨hw1, hw2, hw3⟩ :=
      bit_width_spec (lt_trans (Nat.mod_lt b (by norm_num))
        (by norm_num : (2 : ℕ) ^ 52 < 2 ^ 128)) hF
    have hw53 : bit_width (b % 2 ^ 52) ≤ 52 := by
      by_contra hgt
      have : (2 : ℕ) ^ 52 ≤ 2 ^ (bit_width (b % 2 ^ 52) - 1) :=
        Nat.pow_le_pow_right (by norm_num) (by omega)
      have := Nat.mod_lt b (y := 2 ^ 52) (by norm_num)
      omega
    refine ⟨sign_ite_testBit b 63, ?_, fun _ => ⟨rfl, rfl, ?_, ?_⟩, fun h => absurd hE h⟩
    · simp only [specMagnitude64, if_pos hE, Nat.shiftLeft_eq]
      set s := 53 - bit_width (b % 2 ^ 52) with hs
      rw [Nat.cast_mul, Nat.cast_pow, Nat.cast_ofNat, mul_assoc,
        ← zpow_natCast (2 : ℚ) s, ← zpow_add₀ h2]
      have hexp : ((s : ℤ) + (1 - 1075 - (s : ℤ))) = 1 - 1075 := by omega
      rw [hexp]
    · show 2 ^ 52 ≤ (b % 2 ^ 52) <<< (53 - bit_width (b % 2 ^ 52))
      rw [Nat.shiftLeft_eq]
      calc (2 : ℕ) ^ 52 = 2 ^ (bit_width (b % 2 ^ 52) - 1) * 2 ^ (53 - bit_width (b % 2 ^ 52)) := by
            rw [← Nat.pow_add]
            congr 1
            omega
        _ ≤ (b % 2 ^ 52) * 2 ^ (53 - bit_width (b % 2 ^ 52)) :=
            Nat.mul_le_mul_right _ hw2
    · show (b % 2 ^ 52) <<< (53 - bit_width (b % 2 ^ 52)) < 2 ^ 53
      rw [Nat.shiftLeft_eq]
      calc (b % 2 ^ 52) * 2 ^ (53 - bit_width (b % 2 ^ 52)) <
          2 ^ bit_width (b % 2 ^ 52) * 2 ^ (53 - bit_width (b % 2 ^ 52)) :=
            (Nat.mul_lt_mul_right (Nat.pos_pow_of_pos _ (by norm_num))).mpr hw3
        _ = 2 ^ 53 := by
            rw [← Nat.pow_add]
            congr 1
            omega
  · rw [if_neg (fun hc => hE hc.1), if_pos hE]
    refine ⟨sign_ite_testBit b 63, ?_, fun h => absurd h hE, fun _ => ⟨rfl, rfl⟩⟩
    simp only [specMagnitude64, if_neg hE]
    push_cast
    ring

/-! ### Claim theorems -/

/-- Claim C3: for every finite nonzero encoded bit pattern of a supported
kind (single and double precision, the two kinds the spec names), the
`float_triple` constructor returns sign `+1` iff the sign bit is clear,
significand and exponent whose product `significand · 2^exponent` equals the
represented magnitude (the spec-side `specMagnitude` definitions), with the
hidden bit restored for normals (`F + 2^(w-1)`), and for subnormals the
significand left-shifted by `(significand width) − (position of the highest
set bit)` with `exponent = 1 − bias − shift`, leaving the leading bit in the
hidden-bit position (`2^(w-1) ≤ significand < 2^w`). -/
theorem C3_decomposition :
    (∀ b : ℕ, b < 2 ^ 32 → b / 2 ^ 23 % 2 ^ 8 ≠ 2 ^ 8 - 1 →
      ¬ (b / 2 ^ 23 % 2 ^ 8 = 0 ∧ b % 2 ^ 23 = 0) →
      ((floatTriple32 b).sign = if b.testBit 31 then -1 else 1) ∧
      ((floatTriple32 b).significand : ℚ) * (2 : ℚ) ^ (floatTriple32 b).exponent =
        specMagnitude32 b ∧
      (b / 2 ^ 23 % 2 ^ 8 = 0 →
        (floatTriple32 b).significand = (b % 2 ^ 23) <<< (24 - bit_width (b % 2 ^ 23)) ∧
        (floatTriple32 b).exponent = 1 - 150 - ((24 - bit_width (b % 2 ^ 23) : ℕ) : ℤ) ∧
        2 ^ 23 ≤ (floatTriple32 b).significand ∧ (floatTriple32 b).significand < 2 ^ 24) ∧
      (b / 2 ^ 23 % 2 ^ 8 ≠ 0 →
        (floatTriple32 b).significand = b % 2 ^ 23 + 2 ^ 23 ∧
        (floatTriple32 b).exponent = ((b / 2 ^ 23 % 2 ^ 8 : ℕ) : ℤ) - 150)) ∧
    (∀ b : ℕ, b < 2 ^ 64 → b / 2 ^ 52 % 2 ^ 11 ≠ 2 ^ 11 - 1 →
      ¬ (b / 2 ^ 52 % 2 ^ 11 = 0 ∧ b % 2 ^ 52 = 0) →
      ((floatTriple64 b).sign = if b.testBit 63 then -1 else 1) ∧
      ((floatTriple64 b).significand : ℚ) * (2 : ℚ) ^ (floatTriple64 b).exponent =
        specMagnitude64 b ∧
      (b / 2 ^ 52 % 2 ^ 11 = 0 →
        (floatTriple64 b).significand = (b % 2 ^ 52) <<< (53 - bit_width (b % 2 ^ 52)) ∧
        (floatTriple64 b).exponent = 1 - 1075 - ((53 - bit_width (b % 2 ^ 52) : ℕ) : ℤ) ∧
        2 ^ 52 ≤ (floatTriple64 b).significand ∧ (floatTriple64 b).significand < 2 ^ 53) ∧
      (b / 2 ^ 52 % 2 ^ 11 ≠ 0 →
        (floatTriple64 b).significand = b % 2 ^ 52 + 2 ^ 52 ∧
        (floatTriple64 b).exponent = ((b / 2 ^ 52 % 2 ^ 11 : ℕ) : ℤ) - 1075)) :=
  ⟨fun b hb h1 h2 => floatTriple32_correct b hb h1 h2,
   fun b hb h1 h2 => floatTriple64_correct b hb h1 h2⟩

/-- Witness for C3 at the smallest positive single-precision subnormal
(bit pattern 1): all hypotheses hold by computation, and the conclusion is
the instantiated decomposition correctness. -/
theorem C3_decomposition_witness :
    ((1 : ℕ) < 2 ^ 32 ∧ (1 : ℕ) / 2 ^ 23 % 2 ^ 8 ≠ 2 ^ 8 - 1 ∧
      ¬ ((1 : ℕ) / 2 ^ 23 % 2 ^ 8 = 0 ∧ (1 : ℕ) % 2 ^ 23 = 0)) ∧
    (((floatTriple32 1).sign = if (1 : ℕ).testBit 31 then -1 else 1) ∧
      ((floatTriple32 1).significand : ℚ) * (2 : ℚ) ^ (floatTriple32 1).exponent =
        specMagnitude32 1 ∧
      ((1 : ℕ) / 2 ^ 23 % 2 ^ 8 = 0 →
        (floatTriple32 1).significand = ((1 : ℕ) % 2 ^ 23) <<< (24 - bit_width ((1 : ℕ) % 2 ^ 23)) ∧
        (floatTriple32 1).exponent = 1 - 150 - ((24 - bit_width ((1 : ℕ) % 2 ^ 23) : ℕ) : ℤ) ∧
        2 ^ 23 ≤ (floatTriple32 1).significand ∧ (floatTriple32 1).significand < 2 ^ 24) ∧
      ((1 : ℕ) / 2 ^ 23 % 2 ^ 8 ≠ 0 →
        (floatTriple32 1).significand = (1 : ℕ) % 2 ^ 23 + 2 ^ 23 ∧
        (floatTriple32 1).exponent = (((1 : ℕ) / 2 ^ 23 % 2 ^ 8 : ℕ) : ℤ) - 150)) :=
  ⟨⟨by decide, by decide, by decide⟩,
   C3_decomposition.1 1 (by decide) (by decide) (by decide)⟩

/-- Cancellation of a rational power against its negative-part
complement: `x^t · x^(−t)⁺ = x^(t⁺)`. -/
theorem zpow_mul_toNat_neg (x : ℚ) (hx : x ≠ 0) (t : ℤ) :
    x ^ t * x ^ (-t).toNat = x ^ t.toNat := by
  rw [← zpow_natCast x (-t).toNat, ← zpow_natCast x t.toNat, ← zpow_add₀ hx]
  congr 1
  omega

/-- A mixed-sign inequality between products of powers of 2 and 5 over `ℚ`
is equivalent to a natural-number inequality obtained by clearing all
negative exponents. -/
theorem zpow25_le_iff (a b c d : ℤ) (m₁ m₂ : ℕ) :
    (2 : ℚ) ^ a * (5 : ℚ) ^ b * (m₁ : ℚ) ≤ (2 : ℚ) ^ c * (5 : ℚ) ^ d * (m₂ : ℚ) ↔
    2 ^ a.toNat * 5 ^ b.toNat * 2 ^ (-c).toNat * 5 ^ (-d).toNat * m₁ ≤
      2 ^ c.toNat * 5 ^ d.toNat * 2 ^ (-a).toNat * 5 ^ (-b).toNat * m₂ := by
  have h2 : (0 : ℚ) < 2 := by norm_num
  have h5 : (0 : ℚ) < 5 := by norm_num
  have hT : (0 : ℚ) <
      (2 : ℚ) ^ (-a).toNat * (5 : ℚ) ^ (-b).toNat * (2 : ℚ) ^ (-c).toNat *
        (5 : ℚ) ^ (-d).toNat := by positivity
  rw [← mul_le_mul_right hT]
  have hL : (2 : ℚ) ^ a * (5 : ℚ) ^ b * (m₁ : ℚ) *
      ((2 : ℚ) ^ (-a).toNat * (5 : ℚ) ^ (-b).toNat * (2 : ℚ) ^ (-c).toNat *
        (5 : ℚ) ^ (-d).toNat) =
      ((2 ^ a.toNat * 5 ^ b.toNat * 2 ^ (-c).toNat * 5 ^ (-d).toNat * m₁ : ℕ) : ℚ) := by
    push_cast
    calc (2 : ℚ) ^ a * (5 : ℚ) ^ b * (m₁ : ℚ) *
        ((2 : ℚ) ^ (-a).toNat * (5 : ℚ) ^ (-b).toNat * (2 : ℚ) ^ (-c).toNat *
          (5 : ℚ) ^ (-d).toNat) =
        ((2 : ℚ) ^ a * (2 : ℚ) ^ (-a).toNat) * ((5 : ℚ) ^ b * (5 : ℚ) ^ (-b).toNat) *
          ((2 : ℚ) ^ (-c).toNat * (5 : ℚ) ^ (-d).toNat * (m₁ : ℚ)) := by ring
      _ = _ := by
          rw [zpow_mul_toNat_neg 2 h2.ne' a, zpow_mul_toNat_neg 5 h5.ne' b]
          ring
  have hR : (2 : ℚ) ^ c * (5 : ℚ) ^ d * (m₂ : ℚ) *
      ((2 : ℚ) ^ (-a).toNat * (5 : ℚ) ^ (-b).toNat * (2 : ℚ) ^ (-c).toNat *
        (5 : ℚ) ^ (-d).toNat) =
      ((2 ^ c.toNat * 5 ^ d.toNat * 2 ^ (-a).toNat * 5 ^ (-b).toNat * m₂ : ℕ) : ℚ) := by
    push_cast
    calc (2 : ℚ) ^ c * (5 : ℚ) ^ d * (m₂ : ℚ) *
        ((2 : ℚ) ^ (-a).toNat * (5 : ℚ) ^ (-b).toNat * (2 : ℚ) ^ (-c).toNat *
          (5 : ℚ) ^ (-d).toNat) =
        ((2 : ℚ) ^ c * (2 : ℚ) ^ (-c).toNat) * ((5 : ℚ) ^ d * (5 : ℚ) ^ (-d).toNat) *
          ((2 : ℚ) ^ (-a).toNat * (5 : ℚ) ^ (-b).toNat * (m₂ : ℚ)) := by ring
      _ = _ := by
          rw [zpow_mul_toNat_neg 2 h2.ne' c, zpow_mul_toNat_neg 5 h5.ne' d]
          ring
  rw [hL, hR, Nat.cast_le]

/-- Strict version of `zpow25_le_iff`. -/
theorem zpow25_lt_iff (a b c d : ℤ) (m₁ m₂ : ℕ) :
    (2 : ℚ) ^ a * (5 : ℚ) ^ b * (m₁ : ℚ) < (2 : ℚ) ^ c * (5 : ℚ) ^ d * (m₂ : ℚ) ↔
    2 ^ a.toNat * 5 ^ b.toNat * 2 ^ (-c).toNat * 5 ^ (-d).toNat * m₁ <
      2 ^ c.toNat * 5 ^ d.toNat * 2 ^ (-a).toNat * 5 ^ (-b).toNat * m₂ := by
  rw [← not_le, ← not_le, zpow25_le_iff]

/-- Decompose a rational power of ten into powers of 2 and 5 with the unit
factor demanded by the bridge lemmas. -/
theorem ten_zpow_eq (t : ℤ) :
    (10 : ℚ) ^ t = (2 : ℚ) ^ t * (5 : ℚ) ^ t * ((1 : ℕ) : ℚ) := by
  rw [← mul_zpow]
  norm_num

/-- Shape `2^t` for the bridge lemmas. -/
theorem two_zpow_shape (t : ℤ) :
    (2 : ℚ) ^ t = (2 : ℚ) ^ t * (5 : ℚ) ^ (0 : ℤ) * ((1 : ℕ) : ℚ) := by
  norm_num

/-- Shape `2^t · (3 | 4)` for the bridge lemmas. -/
theorem two_zpow_mul_shape (t : ℤ) (b : Bool) :
    (2 : ℚ) ^ t * (if b then (3 : ℚ) else 4) =
      (2 : ℚ) ^ t * (5 : ℚ) ^ (0 : ℤ) * (((if b then 3 else 4 : ℕ)) : ℚ) := by
  cases b <;> norm_num

set_option maxRecDepth 4000 in
/-- Claim C5: on every binary exponent reachable from a finite nonzero
single-precision input (the interval `[-172, 104]` produced by the
decomposition) and for both values of `lower_boundary_is_closer`, the
estimate of `to_decimal` line 200 equals `⌊e·log10 2 − lbc·log10(4/3)⌋`
(stated via `isFloorLog10`, with no real logarithms), it is also computed
by a fixed-point multiply-shift at scale `2^19` with the nearest-integer
constants `157826 ≈ log10(2)·2^19` and `65504 ≈ log10(4/3)·2^19`, and the
shift of line 201 is `h = e + ⌊log2 10^(-k)⌋ + 1` where `floor_log2_pow10`
computes that floor exactly (stated via `isFloorLog2Pow10`). -/
theorem C5_estimator_closed_form :
    ∀ e : ℤ, -172 ≤ e → e ≤ 104 → ∀ b : Bool,
      isFloorLog10 e b (kEst e b) ∧
      kEst e b = Int.fdiv (e * 157826 - (if b then 65504 else 0)) (2 ^ 19) ∧
      hShift e b = e + floor_log2_pow10 (-(kEst e b)) + 1 ∧
      isFloorLog2Pow10 (-(kEst e b)) (floor_log2_pow10 (-(kEst e b))) := by
  have H : ∀ n : ℕ, n < 277 → ∀ b : Bool,
      (2 ^ (kEst ((n : ℤ) - 172) b).toNat * 5 ^ (kEst ((n : ℤ) - 172) b).toNat *
          2 ^ (-(((n : ℤ) - 172) - 2)).toNat * 5 ^ (-(0 : ℤ)).toNat * 1 ≤
        2 ^ (((n : ℤ) - 172) - 2).toNat * 5 ^ (0 : ℤ).toNat *
          2 ^ (-(kEst ((n : ℤ) - 172) b)).toNat * 5 ^ (-(kEst ((n : ℤ) - 172) b)).toNat *
          (if b then 3 else 4)) ∧
      (2 ^ (((n : ℤ) - 172) - 2).toNat * 5 ^ (0 : ℤ).toNat *
          2 ^ (-(kEst ((n : ℤ) - 172) b + 1)).toNat *
          5 ^ (-(kEst ((n : ℤ) - 172) b + 1)).toNat * (if b then 3 else 4) <
        2 ^ (kEst ((n : ℤ) - 172) b + 1).toNat * 5 ^ (kEst ((n : ℤ) - 172) b + 1).toNat *
          2 ^ (-(((n : ℤ) - 172) - 2)).toNat * 5 ^ (-(0 : ℤ)).toNat * 1) ∧
      kEst ((n : ℤ) - 172) b =
        Int.fdiv (((n : ℤ) - 172) * 157826 - (if b then 65504 else 0)) (2 ^ 19) ∧
      (2 ^ (floor_log2_pow10 (-(kEst ((n : ℤ) - 172) b))).toNat * 5 ^ (0 : ℤ).toNat *
          2 ^ (-(-(kEst ((n : ℤ) - 172) b))).toNat * 5 ^ (-(-(kEst ((n : ℤ) - 172) b))).toNat * 1 ≤
        2 ^ (-(kEst ((n : ℤ) - 172) b)).toNat * 5 ^ (-(kEst ((n : ℤ) - 172) b)).toNat *
          2 ^ (-(floor_log2_pow10 (-(kEst ((n : ℤ) - 172) b)))).toNat * 5 ^ (-(0 : ℤ)).toNat * 1) ∧
      (2 ^ (-(kEst ((n : ℤ) - 172) b)).toNat * 5 ^ (-(kEst ((n : ℤ) - 172) b)).toNat *
          2 ^ (-(floor_log2_pow10 (-(kEst ((n : ℤ) - 172) b)) + 1)).toNat *
          5 ^ (-(0 : ℤ)).toNat * 1 <
        2 ^ (floor_log2_pow10 (-(kEst ((n : ℤ) - 172) b)) + 1).toNat * 5 ^ (0 : ℤ).toNat *
          2 ^ (-(-(kEst ((n : ℤ) - 172) b))).toNat * 5 ^ (-(-(kEst ((n : ℤ) - 172) b))).toNat * 1) := by
    decide
  intro e he1 he2 b
  have hn : ((e + 172).toNat : ℤ) - 172 = e := by omega
  have hlt : (e + 172).toNat < 277 := by omega
  obtain ⟨h1, h2, h3, h4, h5⟩ := H (e + 172).toNat hlt b
  rw [hn] at h1 h2 h3 h4 h5
  refine ⟨⟨?_, ?_⟩, h3, rfl, ?_, ?_⟩
  · rw [ten_zpow_eq (kEst e b), two_zpow_mul_shape (e - 2) b]
    exact (zpow25_le_iff (kEst e b) (kEst e b) (e - 2) 0 1 (if b then 3 else 4)).mpr h1
  · rw [ten_zpow_eq (kEst e b + 1), two_zpow_mul_shape (e - 2) b]
    exact (zpow25_lt_iff (e - 2) 0 (kEst e b + 1) (kEst e b + 1) (if b then 3 else 4) 1).mpr h2
  · rw [ten_zpow_eq (-(kEst e b)), two_zpow_shape (floor_log2_pow10 (-(kEst e b)))]
    exact (zpow25_le_iff (floor_log2_pow10 (-(kEst e b))) 0 (-(kEst e b)) (-(kEst e b)) 1 1).mpr h4
  · rw [ten_zpow_eq (-(kEst e b)), two_zpow_shape (floor_log2_pow10 (-(kEst e b)) + 1)]
    exact (zpow25_lt_iff (-(kEst e b)) (-(kEst e b))
      (floor_log2_pow10 (-(kEst e b)) + 1) 0 1 1).mpr h5

/-- Witness for C5 at the binary exponent of `1.0f` (`e = -23`,
`lower_boundary_is_closer = false`, giving `k = -7`). -/
theorem C5_estimator_closed_form_witness :
    ((-172 : ℤ) ≤ -23 ∧ (-23 : ℤ) ≤ 104) ∧
    (isFloorLog10 (-23) false (kEst (-23) false) ∧
      kEst (-23) false = Int.fdiv ((-23) * 157826 - (if false then 65504 else 0)) (2 ^ 19) ∧
      hShift (-23) false = -23 + floor_log2_pow10 (-(kEst (-23) false)) + 1 ∧
      isFloorLog2Pow10 (-(kEst (-23) false)) (floor_log2_pow10 (-(kEst (-23) false)))) :=
  ⟨⟨by decide, by decide⟩, C5_estimator_closed_form (-23) (by decide) (by decide) false⟩

/-- Claim C8: for every supported floating-point kind (the traits are generic
in `digits ≥ 1` and `max_exponent ≥ 1`, the two parameters the source derives
everything from; single precision is `(24, 128)`, double precision
`(53, 1024)`), the `float_traits` constants satisfy
`storage_width = sign_width + exponent_width + significand_width - (1 if the
hidden bit is present else 0)` (stated both as the source's truncated
subtraction and additively, showing no truncation occurs), and the three
field masks are pairwise disjoint with union exactly the low
`storage_width` bits. -/
theorem C8_traits_invariant (d M : ℕ) (hd : 1 ≤ d) (hM : 1 ≤ M) :
    storage_width d M =
      sign_width + exponent_width M + significand_width d -
        (if has_hidden_bit d M then 1 else 0) ∧
    storage_width d M + (if has_hidden_bit d M then 1 else 0) =
      sign_width + exponent_width M + significand_width d ∧
    sign_mask d M &&& exponent_mask d M = 0 ∧
    sign_mask d M &&& significand_mask d M = 0 ∧
    exponent_mask d M &&& significand_mask d M = 0 ∧
    (sign_mask d M ||| (exponent_mask d M ||| significand_mask d M)) =
      2 ^ storage_width d M - 1 := by
  have hew : 1 ≤ exponent_width M := bit_width_pos (by omega)
  have ha : significand_width d - (if has_hidden_bit d M then 1 else 0) =
      d - (if has_hidden_bit d M then 1 else 0) := rfl
  obtain ⟨m1, m2, m3, m4⟩ :=
    traits_masks (d - (if has_hidden_bit d M then 1 else 0)) (exponent_width M)
  have hW : storage_width d M =
      (d - (if has_hidden_bit d M then 1 else 0)) + exponent_width M + 1 := by
    simp only [storage_width, sign_width, significand_width]
    cases has_hidden_bit d M <;> simp <;> omega
  have hes : exponent_shift d M = d - (if has_hidden_bit d M then 1 else 0) := by
    simp only [exponent_shift, sign_width, hW]
    omega
  have hss : sign_shift d M = (d - (if has_hidden_bit d M then 1 else 0)) + exponent_width M := by
    simp only [sign_shift, sign_width, hW]
    omega
  have hsm : significand_mask d M =
      (1 <<< (d - (if has_hidden_bit d M then 1 else 0))) - 1 := by
    simp only [significand_mask, significand_width]
  have hem : exponent_mask d M =
      ((1 <<< exponent_width M) - 1) <<< (d - (if has_hidden_bit d M then 1 else 0)) := by
    simp only [exponent_mask, hes]
  have hsgm : sign_mask d M =
      ((1 <<< 1) - 1) <<< ((d - (if has_hidden_bit d M then 1 else 0)) + exponent_width M) := by
    simp only [sign_mask, hss, sign_width]
  refine ⟨rfl, ?_, ?_, ?_, ?_, ?_⟩
  · simp only [storage_width, sign_width, significand_width]
    cases has_hidden_bit d M <;> simp <;> omega
  · rw [hsgm, hem]; exact m1
  · rw [hsgm, hsm]; exact m2
  · rw [hem, hsm]; exact m3
  · rw [hsgm, hem, hsm, hW]; exact m4

/-- Witness for C8 at single precision (`float`: digits 24, max exponent 128);
the conclusion evaluates to the concrete 32-bit masks. -/
theorem C8_traits_invariant_witness :
    (1 ≤ 24 ∧ 1 ≤ 128) ∧
    (storage_width 24 128 =
      sign_width + exponent_width 128 + significand_width 24 -
        (if has_hidden_bit 24 128 then 1 else 0) ∧
    storage_width 24 128 + (if has_hidden_bit 24 128 then 1 else 0) =
      sign_width + exponent_width 128 + significand_width 24 ∧
    sign_mask 24 128 &&& exponent_mask 24 128 = 0 ∧
    sign_mask 24 128 &&& significand_mask 24 128 = 0 ∧
    exponent_mask 24 128 &&& significand_mask 24 128 = 0 ∧
    (sign_mask 24 128 ||| (exponent_mask 24 128 ||| significand_mask 24 128)) =
      2 ^ storage_width 24 128 - 1) :=
  ⟨⟨by decide, by decide⟩, C8_traits_invariant 24 128 (by decide) (by decide)⟩

/-- `round_to_odd` always returns a `uint32_t` value. -/
theorem round_to_odd_32_lt (g cp : ℕ) : round_to_odd_32 g cp < 2 ^ 32 := by
  unfold round_to_odd_32 word1_32 M32
  apply Nat.or_lt_two_pow
  · exact Nat.mod_lt _ (by norm_num)
  · split <;> norm_num

/-- Claim C9: `to_decimal` replaces only the significand and exponent; for
every input triple on which it returns, the sign field of the result equals
the sign field of the input. -/
theorem C9_sign_preserved (t r : Triple) (h : to_decimal32 t = some r) :
    r.sign = t.sign := by
  unfold to_decimal32 at h
  dsimp only at h
  cases hg : compute_pow10_32 (-(kEst t.exponent (lbcOf t.significand))) with
  | none => rw [hg] at h; simp at h
  | some g =>
    rw [hg] at h
    simp only at h
    split_ifs at h <;> (injection h with h'; rw [← h'])

/-- Witness for C9 at `1.0f` (bit pattern `0x3F800000`, decomposed triple
`(2^23, -23, +1)`): `to_decimal` returns `(10000000, -7, +1)` and the sign
is preserved. -/
theorem C9_sign_preserved_witness :
    to_decimal32 ⟨8388608, -23, 1⟩ = some ⟨10000000, -7, 1⟩ ∧
    Triple.sign ⟨10000000, -7, 1⟩ = Triple.sign ⟨8388608, -23, 1⟩ :=
  ⟨by decide, C9_sign_preserved ⟨8388608, -23, 1⟩ ⟨10000000, -7, 1⟩ (by decide)⟩

/-- Claim C7: when the digit-trimming test (if reached) and the
same-digit-count test are both ambiguous, `to_decimal` returns the
candidate `vb / 4` incremented exactly when `vb` exceeds the midpoint
`4·candidate + 2`, or equals it with an odd candidate (ties-to-even on the
final digit). -/
theorem C7_final_rounding (sig : ℕ) (e : ℤ) (sgn : ℤ) (g : ℕ)
    (hg : compute_pow10_32 (-(kEst e (lbcOf sig))) = some g)
    (htrim : 10 ≤ candOf g sig e → upInsideOf g sig e = wpInsideOf g sig e)
    (hin : uInsideOf g sig e = wInsideOf g sig e) :
    to_decimal32 ⟨sig, e, sgn⟩ =
      some ⟨candOf g sig e +
        (if 4 * candOf g sig e + 2 < vbOf g sig e ∨
            (vbOf g sig e = 4 * candOf g sig e + 2 ∧ candOf g sig e % 2 = 1)
         then 1 else 0), kEst e (lbcOf sig), sgn⟩ := by
  have hvb : vbOf g sig e < 2 ^ 32 := round_to_odd_32_lt _ _
  have hcand : candOf g sig e < 2 ^ 30 := by
    unfold candOf
    omega
  have hmid : midOf g sig e = 4 * candOf g sig e + 2 := by
    unfold midOf M32
    exact Nat.mod_eq_of_lt (by omega)
  have hru : roundUpOf g sig e = true ↔
      (4 * candOf g sig e + 2 < vbOf g sig e ∨
        (vbOf g sig e = 4 * candOf g sig e + 2 ∧ candOf g sig e % 2 = 1)) := by
    unfold roundUpOf
    rw [hmid]
    have hone : candOf g sig e &&& 1 = candOf g sig e % 2 := Nat.and_one_is_mod _
    simp only [Bool.or_eq_true, Bool.and_eq_true, decide_eq_true_eq, hone]
    constructor
    · rintro (h1 | ⟨h1, h2⟩)
      · exact Or.inl h1
      · exact Or.inr ⟨h1, by omega⟩
    · rintro (h1 | ⟨h1, h2⟩)
      · exact Or.inl h1
      · exact Or.inr ⟨h1, by omega⟩
  have hnot1 : ¬ (10 ≤ candOf g sig e ∧ upInsideOf g sig e ≠ wpInsideOf g sig e) :=
    fun hc => hc.2 (htrim hc.1)
  have hnot2 : ¬ (uInsideOf g sig e ≠ wInsideOf g sig e) := fun hne => hne hin
  unfold to_decimal32
  dsimp only
  rw [hg]
  dsimp only
  rw [if_neg hnot1, if_neg hnot2]
  have hiteeq : (if roundUpOf g sig e then 1 else 0) =
      (if 4 * candOf g sig e + 2 < vbOf g sig e ∨
          (vbOf g sig e = 4 * candOf g sig e + 2 ∧ candOf g sig e % 2 = 1)
       then 1 else 0 : ℕ) := by
    by_cases hp : 4 * candOf g sig e + 2 < vbOf g sig e ∨
        (vbOf g sig e = 4 * candOf g sig e + 2 ∧ candOf g sig e % 2 = 1)
    · rw [if_pos (hru.mpr hp), if_pos hp]
    · rw [if_neg (fun ht => hp (hru.mp ht)), if_neg hp]
  rw [hiteeq]
  have hfin : (candOf g sig e +
      (if 4 * candOf g sig e + 2 < vbOf g sig e ∨
          (vbOf g sig e = 4 * candOf g sig e + 2 ∧ candOf g sig e % 2 = 1)
       then 1 else 0)) % M32 =
      candOf g sig e +
      (if 4 * candOf g sig e + 2 < vbOf g sig e ∨
          (vbOf g sig e = 4 * candOf g sig e + 2 ∧ candOf g sig e % 2 = 1)
       then 1 else 0) := by
    unfold M32
    apply Nat.mod_eq_of_lt
    split <;> omega
  rw [hfin]

/-- Witness for C7 at the input `0x3F808000` (significand 8421376, binary
exponent -23, a value near 1.0039): both inside tests are ambiguous, `vb`
is the exact midpoint `4·10039062 + 2` and the candidate 10039062 is even,
so ties-to-even keeps the even candidate. -/
theorem C7_final_rounding_witness :
    (compute_pow10_32 (-(kEst (-23) (lbcOf 8421376))) = some 0x9896800000000000 ∧
      upInsideOf 0x9896800000000000 8421376 (-23) = wpInsideOf 0x9896800000000000 8421376 (-23) ∧
      uInsideOf 0x9896800000000000 8421376 (-23) = wInsideOf 0x9896800000000000 8421376 (-23) ∧
      vbOf 0x9896800000000000 8421376 (-23) = 4 * candOf 0x9896800000000000 8421376 (-23) + 2 ∧
      candOf 0x9896800000000000 8421376 (-23) % 2 = 0) ∧
    to_decimal32 ⟨8421376, -23, 1⟩ =
      some ⟨candOf 0x9896800000000000 8421376 (-23) +
        (if 4 * candOf 0x9896800000000000 8421376 (-23) + 2 < vbOf 0x9896800000000000 8421376 (-23) ∨
            (vbOf 0x9896800000000000 8421376 (-23) = 4 * candOf 0x9896800000000000 8421376 (-23) + 2 ∧
              candOf 0x9896800000000000 8421376 (-23) % 2 = 1)
         then 1 else 0), kEst (-23) (lbcOf 8421376), 1⟩ :=
  ⟨⟨by decide, by decide, by decide, by decide, by decide⟩,
   C7_final_rounding 8421376 (-23) 1 0x9896800000000000 (by decide) (fun _ => by decide)
     (by decide)⟩

/-- Claim C6 (amended): `round_to_odd(g, cp)` returns the high 32-bit word
of the 96-bit product `g·cp` with its lowest bit forced to 1 exactly when
the SECOND word of the product is at least 2 — equivalently, when some bit
of the product in positions 33–63 is set.  (The claim as stated — sticky on
ANY nonzero bit below the high word — is refuted by
`C6_round_to_odd_counterexample`: bits 0–32 are ignored.) -/
theorem C6_round_to_odd (kk : ℤ) (g cp : ℕ)
    (hg : compute_pow10_32 kk = some g) (hcp : cp < 2 ^ 32) :
    round_to_odd_32 g cp / 2 = (g * cp) / 2 ^ 64 % 2 ^ 32 / 2 ∧
    (round_to_odd_32 g cp % 2 = 1 ↔
      ((g * cp) / 2 ^ 64 % 2 ^ 32) % 2 = 1 ∨ 2 ≤ (g * cp) / 2 ^ 32 % 2 ^ 32) ∧
    (2 ≤ (g * cp) / 2 ^ 32 % 2 ^ 32 ↔
      ∃ i, 33 ≤ i ∧ i < 64 ∧ (g * cp).testBit i = true) := by
  have hw1 : word1_32 (g * cp) = (g * cp) / 2 ^ 64 % 2 ^ 32 := by
    unfold word1_32 M32
    rw [Nat.shiftRight_eq_div_pow]
  have hw0 : word0_32 (g * cp) = (g * cp) / 2 ^ 32 % 2 ^ 32 := by
    unfold word0_32 M32
    rw [Nat.shiftRight_eq_div_pow]
  have hbits : 2 ≤ (g * cp) / 2 ^ 32 % 2 ^ 32 ↔
      ∃ i, 33 ≤ i ∧ i < 64 ∧ (g * cp).testBit i = true := by
    have hsplit : (g * cp) / 2 ^ 32 % 2 ^ 32 / 2 = (g * cp) / 2 ^ 33 % 2 ^ 31 := by
      rw [show (2 : ℕ) ^ 32 = 2 * 2 ^ 31 from by norm_num,
        Nat.mod_mul_right_div_self, Nat.div_div_eq_div_mul]
      norm_num
    have hm : ∀ j : ℕ, ((g * cp) / 2 ^ 33 % 2 ^ 31).testBit j =
        (decide (j < 31) && (g * cp).testBit (33 + j)) := by
      intro j
      rw [Nat.testBit_mod_two_pow]
      congr 1
      rw [show (g * cp) / 2 ^ 33 = (g * cp) >>> 33 from (Nat.shiftRight_eq_div_pow _ _).symm,
        Nat.testBit_shiftRight]
    constructor
    · intro h2
      have hne : (g * cp) / 2 ^ 33 % 2 ^ 31 ≠ 0 := by omega
      obtain ⟨j, hj⟩ := Nat.ne_zero_implies_bit_true hne
      rw [hm j] at hj
      have hj31 : j < 31 := by
        by_contra hge
        simp [hge] at hj
      refine ⟨33 + j, by omega, by omega, ?_⟩
      simpa [hj31] using hj
    · rintro ⟨i, hi1, hi2, hi3⟩
      have : ((g * cp) / 2 ^ 33 % 2 ^ 31).testBit (i - 33) = true := by
        rw [hm]
        have h31 : i - 33 < 31 := by omega
        have h33 : 33 + (i - 33) = i := by omega
        simp [h31, h33, hi3]
      have hne : (g * cp) / 2 ^ 33 % 2 ^ 31 ≠ 0 := by
        intro h0
        rw [h0] at this
        simp at this
      omega
  refine ⟨?_, ?_, hbits⟩
  · unfold round_to_odd_32
    dsimp only
    rw [hw1, hw0]
    by_cases hs : 1 < (g * cp) / 2 ^ 32 % 2 ^ 32
    · rw [if_pos hs, lor_one_eq]
      omega
    · rw [if_neg hs, Nat.or_zero]
  · unfold round_to_odd_32
    dsimp only
    rw [hw1, hw0]
    by_cases hs : 1 < (g * cp) / 2 ^ 32 % 2 ^ 32
    · rw [if_pos hs, lor_one_eq]
      constructor
      · intro _
        exact Or.inr (by omega)
      · intro _
        omega
    · rw [if_neg hs, Nat.or_zero]
      constructor
      · intro h1
        exact Or.inl h1
      · rintro (h1 | h2)
        · exact h1
        · omega

/-- Witness for C6's amended theorem at the table mantissa for decimal
exponent `-1` and the shifted boundary candidate that arises from the input
`0x4D000002` (the same pair as the counterexample). -/
theorem C6_round_to_odd_witness :
    (compute_pow10_32 (-1) = some 0xCCCCCCCCCCCCCCCD ∧ (67108880 : ℕ) < 2 ^ 32) ∧
    (round_to_odd_32 0xCCCCCCCCCCCCCCCD 67108880 / 2 =
      (0xCCCCCCCCCCCCCCCD * 67108880) / 2 ^ 64 % 2 ^ 32 / 2 ∧
    (round_to_odd_32 0xCCCCCCCCCCCCCCCD 67108880 % 2 = 1 ↔
      ((0xCCCCCCCCCCCCCCCD * 67108880) / 2 ^ 64 % 2 ^ 32) % 2 = 1 ∨
        2 ≤ (0xCCCCCCCCCCCCCCCD * 67108880) / 2 ^ 32 % 2 ^ 32) ∧
    (2 ≤ (0xCCCCCCCCCCCCCCCD * 67108880) / 2 ^ 32 % 2 ^ 32 ↔
      ∃ i, 33 ≤ i ∧ i < 64 ∧ (0xCCCCCCCCCCCCCCCD * 67108880 : ℕ).testBit i = true)) :=
  ⟨⟨by decide, by decide⟩,
   C6_round_to_odd (-1) 0xCCCCCCCCCCCCCCCD 67108880 (by decide) (by decide)⟩

/-- Ranges of the fields produced by single-precision decomposition of a
finite nonzero pattern: the significand is normalized (`2^23 ≤ s < 2^24`)
and the binary exponent lies in `[-172, 104]`. -/
theorem floatTriple32_ranges (b : ℕ)
    (hfin : b / 2 ^ 23 % 2 ^ 8 ≠ 2 ^ 8 - 1)
    (hnz : ¬ (b / 2 ^ 23 % 2 ^ 8 = 0 ∧ b % 2 ^ 23 = 0)) :
    2 ^ 23 ≤ (floatTriple32 b).significand ∧ (floatTriple32 b).significand < 2 ^ 24 ∧
    -172 ≤ (floatTriple32 b).exponent ∧ (floatTriple32 b).exponent ≤ 104 := by
  have hE8 : b / 2 ^ 23 % 2 ^ 8 < 2 ^ 8 := Nat.mod_lt _ (by norm_num)
  rw [floatTriple32_eq]
  by_cases hE : b / 2 ^ 23 % 2 ^ 8 = 0
  · have hF : b % 2 ^ 23 ≠ 0 := fun hF => hnz ⟨hE, hF⟩
    rw [if_pos ⟨hE, hF⟩]
    obtain ⟨hw1, hw2, hw3⟩ :=
      bit_width_spec (lt_trans (Nat.mod_lt b (by norm_num))
        (by norm_num : (2 : ℕ) ^ 23 < 2 ^ 128)) hF
    have hw23 : bit_width (b % 2 ^ 23) ≤ 23 := by
      by_contra hgt
      have : (2 : ℕ) ^ 23 ≤ 2 ^ (bit_width (b % 2 ^ 23) - 1) :=
        Nat.pow_le_pow_right (by norm_num) (by omega)
      have := Nat.mod_lt b (y := 2 ^ 23) (by norm_num)
      omega
    refine ⟨?_, ?_, by simp only; omega, by simp only; omega⟩
    · show 2 ^ 23 ≤ (b % 2 ^ 23) <<< (24 - bit_width (b % 2 ^ 23))
      rw [Nat.shiftLeft_eq]
      calc (2 : ℕ) ^ 23 = 2 ^ (bit_width (b % 2 ^ 23) - 1) * 2 ^ (24 - bit_width (b % 2 ^ 23)) := by
            rw [← Nat.pow_add]
            congr 1
            omega
        _ ≤ (b % 2 ^ 23) * 2 ^ (24 - bit_width (b % 2 ^ 23)) :=
            Nat.mul_le_mul_right _ hw2
    · show (b % 2 ^ 23) <<< (24 - bit_width (b % 2 ^ 23)) < 2 ^ 24
      rw [Nat.shiftLeft_eq]
      calc (b % 2 ^ 23) * 2 ^ (24 - bit_width (b % 2 ^ 23)) <
          2 ^ bit_width (b % 2 ^ 23) * 2 ^ (24 - bit_width (b % 2 ^ 23)) :=
            (Nat.mul_lt_mul_right (Nat.pos_pow_of_pos _ (by norm_num))).mpr hw3
        _ = 2 ^ 24 := by
            rw [← Nat.pow_add]
            congr 1
            omega
  · rw [if_neg (fun hc => hE hc.1), if_pos hE]
    have hFlt : b % 2 ^ 23 < 2 ^ 23 := Nat.mod_lt b (by norm_num)
    refine ⟨by simp only; omega, by simp only; omega, by simp only; omega, by simp only; omega⟩

set_option maxRecDepth 4000 in
/-- Claim C10: for every correctly normalized single-precision triple
(every finite nonzero input after decomposition), the shift `h` is
nonnegative and small enough that the boundary candidates
`4s - 2 (+1)`, `4s`, `4s + 2` and their left shifts by `h` all equal the
exact mathematical products in the 32-bit word — nothing wraps mod `2^32`. -/
theorem C10_no_overflow (b : ℕ) (hb : b < 2 ^ 32)
    (hfin : b / 2 ^ 23 % 2 ^ 8 ≠ 2 ^ 8 - 1)
    (hnz : ¬ (b / 2 ^ 23 % 2 ^ 8 = 0 ∧ b % 2 ^ 23 = 0)) :
    cblOf (floatTriple32 b).significand =
      4 * (floatTriple32 b).significand - 2 +
        (if lbcOf (floatTriple32 b).significand then 1 else 0) ∧
    cbOf (floatTriple32 b).significand = 4 * (floatTriple32 b).significand ∧
    cbrOf (floatTriple32 b).significand = 4 * (floatTriple32 b).significand + 2 ∧
    0 ≤ hShift (floatTriple32 b).exponent (lbcOf (floatTriple32 b).significand) ∧
    cblShifted (floatTriple32 b).significand (floatTriple32 b).exponent =
      (4 * (floatTriple32 b).significand - 2 +
        (if lbcOf (floatTriple32 b).significand then 1 else 0)) *
        2 ^ (hShift (floatTriple32 b).exponent (lbcOf (floatTriple32 b).significand)).toNat ∧
    cbShifted (floatTriple32 b).significand (floatTriple32 b).exponent =
      4 * (floatTriple32 b).significand *
        2 ^ (hShift (floatTriple32 b).exponent (lbcOf (floatTriple32 b).significand)).toNat ∧
    cbrShifted (floatTriple32 b).significand (floatTriple32 b).exponent =
      (4 * (floatTriple32 b).significand + 2) *
        2 ^ (hShift (floatTriple32 b).exponent (lbcOf (floatTriple32 b).significand)).toNat := by
  obtain ⟨hs1, hs2, he1, he2⟩ := floatTriple32_ranges b hfin hnz
  set sig := (floatTriple32 b).significand with hsig
  set e := (floatTriple32 b).exponent with he
  have Hh : ∀ n : ℕ, n < 277 → ∀ bb : Bool,
      0 ≤ hShift ((n : ℤ) - 172) bb ∧ hShift ((n : ℤ) - 172) bb ≤ 4 := by decide
  have hn : ((e + 172).toNat : ℤ) - 172 = e := by omega
  obtain ⟨hh0, hh4⟩ := Hh (e + 172).toNat (by omega) (lbcOf sig)
  rw [hn] at hh0 hh4
  have hP : 2 ^ (hShift e (lbcOf sig)).toNat ≤ 2 ^ 4 :=
    Nat.pow_le_pow_right (by norm_num) (by omega)
  have hcbl : cblOf sig = 4 * sig - 2 + (if lbcOf sig then 1 else 0) := by
    unfold cblOf M32
    cases hlbc : lbcOf sig
    · rw [if_neg (by decide : ¬ (false = true))]
      omega
    · rw [if_pos rfl]
      omega
  have hcb : cbOf sig = 4 * sig := by
    unfold cbOf M32
    omega
  have hcbr : cbrOf sig = 4 * sig + 2 := by
    unfold cbrOf M32
    omega
  refine ⟨hcbl, hcb, hcbr, hh0, ?_, ?_, ?_⟩
  · unfold cblShifted M32
    rw [hcbl, Nat.shiftLeft_eq]
    apply Nat.mod_eq_of_lt
    calc (4 * sig - 2 + (if lbcOf sig then 1 else 0)) * 2 ^ (hShift e (lbcOf sig)).toNat ≤
        2 ^ 26 * 2 ^ 4 := Nat.mul_le_mul (by split <;> omega) hP
      _ < 2 ^ 32 := by norm_num
  · unfold cbShifted M32
    rw [hcb, Nat.shiftLeft_eq]
    apply Nat.mod_eq_of_lt
    calc 4 * sig * 2 ^ (hShift e (lbcOf sig)).toNat ≤ 2 ^ 26 * 2 ^ 4 :=
        Nat.mul_le_mul (by omega) hP
      _ < 2 ^ 32 := by norm_num
  · unfold cbrShifted M32
    rw [hcbr, Nat.shiftLeft_eq]
    apply Nat.mod_eq_of_lt
    calc (4 * sig + 2) * 2 ^ (hShift e (lbcOf sig)).toNat ≤ 2 ^ 26 * 2 ^ 4 :=
        Nat.mul_le_mul (by omega) hP
      _ < 2 ^ 32 := by norm_num

/-- Witness for C10 at `100.0f` (bit pattern `0x42C80000`, triple
`(13107200, -17, +1)`). -/
theorem C10_no_overflow_witness :
    ((0x42C80000 : ℕ) < 2 ^ 32 ∧ (0x42C80000 : ℕ) / 2 ^ 23 % 2 ^ 8 ≠ 2 ^ 8 - 1 ∧
      ¬ ((0x42C80000 : ℕ) / 2 ^ 23 % 2 ^ 8 = 0 ∧ (0x42C80000 : ℕ) % 2 ^ 23 = 0)) ∧
    (cblOf (floatTriple32 0x42C80000).significand =
      4 * (floatTriple32 0x42C80000).significand - 2 +
        (if lbcOf (floatTriple32 0x42C80000).significand then 1 else 0) ∧
    cbOf (floatTriple32 0x42C80000).significand = 4 * (floatTriple32 0x42C80000).significand ∧
    cbrOf (floatTriple32 0x42C80000).significand =
      4 * (floatTriple32 0x42C80000).significand + 2 ∧
    0 ≤ hShift (floatTriple32 0x42C80000).exponent (lbcOf (floatTriple32 0x42C80000).significand) ∧
    cblShifted (floatTriple32 0x42C80000).significand (floatTriple32 0x42C80000).exponent =
      (4 * (floatTriple32 0x42C80000).significand - 2 +
        (if lbcOf (floatTriple32 0x42C80000).significand then 1 else 0)) *
        2 ^ (hShift (floatTriple32 0x42C80000).exponent
          (lbcOf (floatTriple32 0x42C80000).significand)).toNat ∧
    cbShifted (floatTriple32 0x42C80000).significand (floatTriple32 0x42C80000).exponent =
      4 * (floatTriple32 0x42C80000).significand *
        2 ^ (hShift (floatTriple32 0x42C80000).exponent
          (lbcOf (floatTriple32 0x42C80000).significand)).toNat ∧
    cbrShifted (floatTriple32 0x42C80000).significand (floatTriple32 0x42C80000).exponent =
      (4 * (floatTriple32 0x42C80000).significand + 2) *
        2 ^ (hShift (floatTriple32 0x42C80000).exponent
          (lbcOf (floatTriple32 0x42C80000).significand)).toNat) :=
  ⟨⟨by decide, by decide, by decide⟩,
   C10_no_overflow 0x42C80000 (by decide) (by decide) (by decide)⟩

/-- Counterexample for C6 as stated: for the table mantissa
`g = compute_pow10(-1) = 0xCCCCCCCCCCCCCCCD` and the shifted boundary
candidate `cp = cb << h = 67108880` (which arises in `to_decimal` of the
float `0x4D000002`, value 134217760), the product `g·cp` has nonzero bits
below the high word (its low 64 bits are 13421776 ≠ 0) yet the source's
`round_to_odd` returns the EVEN value 53687104: the low bits 0–32 are
ignored, so the low bit is NOT forced to 1 as the claim requires
(the claim's version returns 53687105). -/
theorem C6_round_to_odd_counterexample :
    compute_pow10_32 (-1) = some 0xCCCCCCCCCCCCCCCD ∧
    floatTriple32 0x4D000002 = ⟨8388610, 4, 1⟩ ∧
    kEst 4 (lbcOf 8388610) = 1 ∧
    cbShifted 8388610 4 = 67108880 ∧
    (0xCCCCCCCCCCCCCCCD * 67108880) % 2 ^ 64 ≠ 0 ∧
    round_to_odd_32 0xCCCCCCCCCCCCCCCD 67108880 = 53687104 ∧
    round_to_odd_spec 0xCCCCCCCCCCCCCCCD 67108880 = 53687105 ∧
    round_to_odd_32 0xCCCCCCCCCCCCCCCD 67108880 ≠
      round_to_odd_spec 0xCCCCCCCCCCCCCCCD 67108880 :=
  ⟨by decide, by decide, by decide, by decide, by decide, by decide, by decide, by decide⟩

/-- Claim C1 (code bug, failing input): the smallest positive single-precision
subnormal, bit pattern `0x00000001` (value `2^-149`).  The constructor
normalizes it to significand `2^23`, exponent `-172`; inside `to_decimal` the
estimator then yields `k = -52`, `compute_pow10(52)` violates its
`k <= kMax = 45` assertion, and no decimal triple is produced — so no decimal
around-trip output exists for this finite nonzero input, contradicting the
round-trip claim. -/
theorem C1_subnormal_no_output :
    floatTriple32 1 = ⟨2 ^ 23, -172, 1⟩ ∧
    kEst (-172) (lbcOf (2 ^ 23)) = -52 ∧
    to_decimal32 (floatTriple32 1) = none := by
  refine ⟨by decide, by decide, by decide⟩

/-- Claim C2 (code bug, failing input): the single-precision subnormal with
bit pattern `0x00000002` (value `2^-148`).  `to_decimal` produces no decimal
significand at all (the `compute_pow10` range assertion fires with
`k = -52`), so no produced digit count exists to be minimal, contradicting
the shortest-digit-count claim which presupposes an output for every finite
nonzero input. -/
theorem C2_subnormal_no_output :
    floatTriple32 2 = ⟨2 ^ 23, -171, 1⟩ ∧
    to_decimal32 (floatTriple32 2) = none := by
  refine ⟨by decide, by decide⟩

/-- Claim C4 (code bug, failing input): the single-precision subnormal with
bit pattern `0x00400000` (value `2^-127`).  Decomposition yields the
correctly normalized triple `(2^23, -150)`; the estimator gives `k = -46`,
so `-k = 46` lies outside the table range `-31 ≤ -k ≤ 45` and the
`compute_pow10` assertion fires — the error branch IS reachable from a
finite nonzero float, contradicting the claim.  (Every subnormal input
behaves this way; for normal inputs `k` stays in range, see
`C5_estimator_closed_form`'s domain.) -/
theorem C4_assertion_reachable :
    floatTriple32 0x00400000 = ⟨2 ^ 23, -150, 1⟩ ∧
    kEst (-150) (lbcOf (2 ^ 23)) = -46 ∧
    ¬ (-31 ≤ (46 : ℤ) ∧ (46 : ℤ) ≤ 45) ∧
    compute_pow10_32 46 = none ∧
    to_decimal32 (floatTriple32 0x00400000) = none := by
  refine ⟨by decide, by decide, by decide, by decide, by decide⟩

end Schubfach
